import Mathlib

/-!
Verification of the core algorithms of the copy-previous-day-note plugin:
the completed-task filter, the date-token folder-path resolver, and the
bounded lookback search.  Text is modelled as a list of characters; each
definition is a direct translation of the corresponding source function.
-/

namespace CopyPrevNote

/-- Character class of the JavaScript whitespace regex class (ECMAScript
WhiteSpace together with LineTerminator), which also underlies the
behaviour of the JavaScript trim method. -/
def jsWhitespace (c : Char) : Bool :=
  c = ' ' || c = '\t' || c = '\n' || c = '\r' || c = '\x0b' || c = '\x0c' ||
  c = '\u00A0' || c = '\uFEFF' || c = '\u1680' ||
  ('\u2000' ≤ c && c ≤ '\u200A') || c = '\u2028' || c = '\u2029' ||
  c = '\u202F' || c = '\u205F' || c = '\u3000'

/-- Models the test that the trim of a line is the empty string: every
character of the line is JavaScript whitespace. -/
def trimEmpty (line : List Char) : Bool := line.all jsWhitespace

/-- Models replacing every tab character of a line with three spaces
(the global tab-regex replace of the source). -/
def replaceTabs : List Char → List Char
  | [] => []
  | c :: cs =>
    if c = '\t' then ' ' :: ' ' :: ' ' :: replaceTabs cs else c :: replaceTabs cs

/-- Models the JavaScript search for a non-whitespace character: the index
of the first character outside the whitespace class, or minus one when the
line has none. -/
def searchNonWs (line : List Char) : Int :=
  match line.findIdx? (fun c => !jsWhitespace c) with
  | some i => (i : Int)
  | none => -1

/-- Indent level of a line as the source computes it: expand tabs, search
for the first non-whitespace character, add one. -/
def lineLevel (line : List Char) : Int := searchNonWs (replaceTabs line) + 1

/-- Models the test of the completed-task regex of the source: optional
leading whitespace, a list marker that is a dash or an asterisk, one
whitespace character, then the literal checked box with a lowercase x. -/
def taskRegexTest (line : List Char) : Bool :=
  match line.dropWhile jsWhitespace with
  | m :: s :: '[' :: 'x' :: ']' :: _ => (m = '-' || m = '*') && jsWhitespace s
  | _ => false

/-- Models the JavaScript split of a string on a one-character separator;
splitting the empty string yields one empty piece. -/
def splitOnChar (sep : Char) : List Char → List (List Char)
  | [] => [[]]
  | c :: cs =>
    if c = sep then [] :: splitOnChar sep cs
    else (c :: (splitOnChar sep cs).headD []) :: (splitOnChar sep cs).tail

/-- Models the JavaScript join of string pieces with a one-character
separator. -/
def joinChar (sep : Char) : List (List Char) → List Char
  | [] => []
  | [l] => l
  | l :: l2 :: ls => l ++ sep :: joinChar sep (l2 :: ls)

/-- The loop of removeCompletedTasks over the remaining lines, threading
the integer skip level exactly as the source does: whitespace-only lines
pass through, a matched completed task lowers or sets the skip level and is
dropped, a line indented deeper than an active skip level is dropped, and
any other line resets the skip level and is emitted. -/
def filterLines (skip : Int) : List (List Char) → List (List Char)
  | [] => []
  | line :: rest =>
    if trimEmpty line then
      line :: filterLines skip rest
    else if taskRegexTest line then
      filterLines (if skip = 0 ∨ lineLevel line < skip then lineLevel line else skip) rest
    else if skip > 0 ∧ lineLevel line > skip then
      filterLines skip rest
    else
      line :: filterLines 0 rest

/-- The task filter of the source: split the content on newlines, run the
skip-level loop with skip initially zero, join the kept lines with
newlines. -/
def removeCompletedTasks (content : List Char) : List Char :=
  joinChar '\n' (filterLines 0 (splitOnChar '\n' content))

/-- The date-token array of the source, in its exact order; the regex the
source builds is the alternation of these tokens in this order, tried
first-to-last at each position. -/
def dateTokens : List (List Char) :=
  [['Y','Y','Y','Y'], ['Y','Y'], ['M','M'], ['M'], ['D','D'], ['D'],
   ['d','d','d'], ['d','d','d','d'], ['M','M','M','M'], ['M','M','M']]

/-- Models the JavaScript includes test: the needle occurs as a contiguous
substring of the haystack. -/
def listIncludes (needle : List Char) : List Char → Bool
  | [] => needle.isEmpty
  | c :: cs => needle.isPrefixOf (c :: cs) || listIncludes needle cs

/-- Ordered alternation at one position: try each token as a literal prefix
of the text, first-to-last, returning the matched token and the remaining
text after it. -/
def matchAlt (toks : List (List Char)) (s : List Char) : Option (List Char × List Char) :=
  match toks with
  | [] => none
  | t :: ts => if t.isPrefixOf s then some (t, s.drop t.length) else matchAlt ts s

/-- Fuelled scan of the global regex replace: at each position try the
token alternation; on a match emit the formatted value and continue after
the match, otherwise emit the character and advance by one. -/
def replaceDateTokensAux (fmt : List Char → List Char) : Nat → List Char → List Char
  | 0, _ => []
  | fuel + 1, s =>
    match matchAlt dateTokens s with
    | some (t, rest) => fmt t ++ replaceDateTokensAux fmt fuel rest
    | none =>
      match s with
      | [] => []
      | c :: cs => c :: replaceDateTokensAux fmt fuel cs

/-- Models the global replace of the date-token alternation over a path
segment, where fmt is the external date-formatting collaborator applied to
the matched token. -/
def replaceDateTokens (fmt : List Char → List Char) (s : List Char) : List Char :=
  replaceDateTokensAux fmt s.length s

/-- The per-segment processing of parseCustomFolderPath: a segment that
contains some date token as a substring has all alternation matches
replaced by their formatted values; any other segment passes through
unchanged. -/
def processSegment (fmt : List Char → List Char) (segment : List Char) : List Char :=
  if dateTokens.any (fun t => listIncludes t segment) then replaceDateTokens fmt segment
  else segment

/-- The folder-path resolver of the source: an empty template resolves to
the empty path; otherwise split on slashes, process each segment, and join
the processed segments back with slashes. -/
def parseCustomFolderPath (fmt : List Char → List Char) (folderPath : List Char) : List Char :=
  if folderPath = [] then []
  else joinChar '/' ((splitOnChar '/' folderPath).map (processSegment fmt))

/-- Modelled from the spec: the external moment-style date formatting
collaborator (the format method of the date object), instantiated at the
concrete date 2024-03-05, which is a Tuesday.  Each recognized token maps
to that date's rendered value; any other argument is returned unchanged. -/
def fmtMar5 : List Char → List Char
  | ['Y','Y','Y','Y'] => "2024".data
  | ['Y','Y'] => "24".data
  | ['M','M','M','M'] => "March".data
  | ['M','M','M'] => "Mar".data
  | ['M','M'] => "03".data
  | ['M'] => "3".data
  | ['D','D'] => "05".data
  | ['D'] => "5".data
  | ['d','d','d','d'] => "Tuesday".data
  | ['d','d','d'] => "Tue".data
  | t => t

/-- The list of candidate day offsets the lookback loop iterates, starting
at the given offset and counting the given number of days. -/
def daysRange : Nat → Nat → List Nat
  | _, 0 => []
  | i, n + 1 => i :: daysRange (i + 1) n

/-- The lookback loop of the source from offset i with n iterations left:
probe existence of the note i days back; on a hit read it and stop,
otherwise continue with the next day.  The first component records the
offsets whose existence was queried, in order. -/
def lookbackAux (ex : Nat → Bool) (rd : Nat → List Char) :
    Nat → Nat → List Nat × Option (List Char)
  | _, 0 => ([], none)
  | i, n + 1 =>
    if ex i then ([i], some (rd i))
    else
      let p := lookbackAux ex rd (i + 1) n
      (i :: p.1, p.2)

/-- The lookback search of the source: iterate offsets one through maxDays
against the external existence and read capabilities, returning the probed
offsets and the content of the first existing candidate, if any. -/
def findPreviousNote (ex : Nat → Bool) (rd : Nat → List Char) (maxDays : Nat) :
    List Nat × Option (List Char) :=
  lookbackAux ex rd 1 maxDays

/-- The six-line example input of the level-tracking property. -/
def levelExampleInput : List Char :=
  "- [x] done top\n  - child A\n- [ ] open\n  - [x] done nested\n    - grandchild\n- sibling".data

/-- The expected output of the level-tracking property. -/
def levelExampleOutput : List Char := "- [ ] open\n- sibling".data

/-- Splitting never yields the empty list of pieces. -/
theorem splitOnChar_ne_nil (sep : Char) (s : List Char) : splitOnChar sep s ≠ [] := by
  cases s with
  | nil => simp [splitOnChar]
  | cons c cs =>
    simp only [splitOnChar]
    split <;> simp

/-- No piece produced by splitting contains the separator. -/
theorem not_mem_of_mem_splitOnChar {sep : Char} :
    ∀ {s : List Char}, ∀ l ∈ splitOnChar sep s, sep ∉ l := by
  intro s
  induction s with
  | nil =>
    intro l hl
    simp [splitOnChar] at hl
    simp [hl]
  | cons c cs ih =>
    intro l hl
    obtain ⟨a, as, he⟩ : ∃ a as, splitOnChar sep cs = a :: as := by
      cases h : splitOnChar sep cs with
      | nil => exact absurd h (splitOnChar_ne_nil sep cs)
      | cons a as => exact ⟨a, as, rfl⟩
    by_cases hc : c = sep
    · simp only [splitOnChar, if_pos hc] at hl
      rcases List.mem_cons.mp hl with h | h
      · subst h
        simp
      · exact ih l h
    · simp only [splitOnChar, if_neg hc, he, List.headD_cons, List.tail_cons] at hl
      rcases List.mem_cons.mp hl with h | h
      · subst h
        intro hmem
        rcases List.mem_cons.mp hmem with h1 | h1
        · exact hc h1.symm
        · exact ih a (he ▸ List.mem_cons_self a as) h1
      · exact ih l (by rw [he]; exact List.mem_cons_of_mem a h)

/-- Splitting a piece without the separator yields just that piece. -/
theorem splitOnChar_eq_single {sep : Char} {l : List Char} (h : sep ∉ l) :
    splitOnChar sep l = [l] := by
  induction l with
  | nil => rfl
  | cons c cs ih =>
    have h1 : sep ≠ c ∧ sep ∉ cs := by simpa [List.mem_cons, not_or] using h
    have hc : ¬ c = sep := fun he => h1.1 he.symm
    simp [splitOnChar, if_neg hc, ih h1.2]

/-- Splitting text that starts with a separator-free piece followed by the
separator peels off that piece. -/
theorem splitOnChar_append {sep : Char} {l r : List Char} (h : sep ∉ l) :
    splitOnChar sep (l ++ sep :: r) = l :: splitOnChar sep r := by
  induction l with
  | nil => simp [splitOnChar]
  | cons c cs ih =>
    have h1 : sep ≠ c ∧ sep ∉ cs := by simpa [List.mem_cons, not_or] using h
    have hc : ¬ c = sep := fun he => h1.1 he.symm
    simp [splitOnChar, if_neg hc, ih h1.2]

/-- Splitting a join of separator-free pieces recovers the pieces. -/
theorem splitOnChar_joinChar {sep : Char} :
    ∀ {ls : List (List Char)}, ls ≠ [] → (∀ l ∈ ls, sep ∉ l) →
      splitOnChar sep (joinChar sep ls) = ls := by
  intro ls
  induction ls with
  | nil => intro h _; exact absurd rfl h
  | cons l ls ih =>
    intro _ hmem
    cases ls with
    | nil =>
      simp only [joinChar]
      exact splitOnChar_eq_single (hmem l (List.mem_cons_self l []))
    | cons l2 ls2 =>
      simp only [joinChar]
      rw [splitOnChar_append (hmem l (List.mem_cons_self _ _))]
      rw [ih (by simp) (fun x hx => hmem x (List.mem_cons_of_mem l hx))]

/-- The lines the filter emits form a sublist of the lines it was given. -/
theorem filterLines_sublist (skip : Int) (ls : List (List Char)) :
    List.Sublist (filterLines skip ls) ls := by
  induction ls generalizing skip with
  | nil => simp [filterLines]
  | cons l ls ih =>
    simp only [filterLines]
    split
    · exact List.Sublist.cons₂ l (ih skip)
    · split
      · exact List.Sublist.cons l (ih _)
      · split
        · exact List.Sublist.cons l (ih skip)
        · exact List.Sublist.cons₂ l (ih 0)

/-- Dropping a satisfied predicate from the whole list leaves nothing. -/
theorem dropWhile_eq_nil_of_all {p : Char → Bool} :
    ∀ {l : List Char}, l.all p = true → l.dropWhile p = [] := by
  intro l
  induction l with
  | nil => intro _; rfl
  | cons c cs ih =>
    intro h
    simp only [List.all_cons, Bool.and_eq_true] at h
    simp [List.dropWhile_cons, h.1, ih h.2]

/-- A whitespace-only line never matches the completed-task regex. -/
theorem taskRegexTest_of_trimEmpty {l : List Char} (h : trimEmpty l = true) :
    taskRegexTest l = false := by
  unfold taskRegexTest
  rw [dropWhile_eq_nil_of_all h]

/-- No line the filter emits matches the completed-task regex. -/
theorem taskRegexTest_of_mem_filterLines :
    ∀ {skip : Int} {ls : List (List Char)} {l : List Char},
      l ∈ filterLines skip ls → taskRegexTest l = false := by
  intro skip ls
  induction ls generalizing skip with
  | nil => intro l h; simp [filterLines] at h
  | cons x xs ih =>
    intro l h
    simp only [filterLines] at h
    by_cases h1 : trimEmpty x = true
    · rw [if_pos h1] at h
      rcases List.mem_cons.mp h with h2 | h2
      · subst h2; exact taskRegexTest_of_trimEmpty h1
      · exact ih h2
    · rw [if_neg h1] at h
      by_cases h2 : taskRegexTest x = true
      · rw [if_pos h2] at h
        exact ih h
      · rw [if_neg h2] at h
        by_cases h3 : skip > 0 ∧ lineLevel x > skip
        · rw [if_pos h3] at h
          exact ih h
        · rw [if_neg h3] at h
          rcases List.mem_cons.mp h with h4 | h4
          · subst h4; exact Bool.eq_false_iff.mpr h2
          · exact ih h4

/-- On lines among which no completed task occurs, the filter starting with
skip level zero is the identity. -/
theorem filterLines_id :
    ∀ {ls : List (List Char)}, (∀ l ∈ ls, taskRegexTest l = false) →
      filterLines 0 ls = ls := by
  intro ls
  induction ls with
  | nil => intro _; rfl
  | cons x xs ih =>
    intro h
    have hx : taskRegexTest x = false := h x (List.mem_cons_self x xs)
    have hxs : ∀ l ∈ xs, taskRegexTest l = false :=
      fun l hl => h l (List.mem_cons_of_mem x hl)
    simp only [filterLines]
    by_cases h1 : trimEmpty x = true
    · rw [if_pos h1, ih hxs]
    · rw [if_neg h1, if_neg (by simp [hx]), if_neg (by simp), ih hxs]

/-- Step of the filter loop on a whitespace-only line: the line is emitted
and the skip level is unchanged. -/
theorem filterLines_cons_blank {x : List Char} (h : trimEmpty x = true)
    (skip : Int) (xs : List (List Char)) :
    filterLines skip (x :: xs) = x :: filterLines skip xs := by
  simp [filterLines, h]

/-- Step of the filter loop on a matched completed task: the line is
dropped and the skip level is lowered to the line level when the skip level
was zero or higher than it. -/
theorem filterLines_cons_task {x : List Char} (h1 : trimEmpty x = false)
    (h2 : taskRegexTest x = true) (skip : Int) (xs : List (List Char)) :
    filterLines skip (x :: xs)
      = filterLines (if skip = 0 ∨ lineLevel x < skip then lineLevel x else skip) xs := by
  simp [filterLines, h1, h2]

/-- Step of the filter loop on a non-task line nested deeper than an active
skip level: the line is dropped and the skip level kept. -/
theorem filterLines_cons_deep {x : List Char} (h1 : trimEmpty x = false)
    (h2 : taskRegexTest x = false) {skip : Int} (h3 : skip > 0 ∧ lineLevel x > skip)
    (xs : List (List Char)) :
    filterLines skip (x :: xs) = filterLines skip xs := by
  simp [filterLines, h1, h2, h3]

/-- Step of the filter loop on a non-task line not nested deeper than the
skip level: skipping stops and the line is emitted. -/
theorem filterLines_cons_emit {x : List Char} (h1 : trimEmpty x = false)
    (h2 : taskRegexTest x = false) {skip : Int} (h3 : ¬(skip > 0 ∧ lineLevel x > skip))
    (xs : List (List Char)) :
    filterLines skip (x :: xs) = x :: filterLines 0 xs := by
  simp [filterLines, h1, h2, h3]

/-- Erasing the whitespace-only lines commutes with the filter: running the
filter as if the blank lines were absent yields the filter output with its
blank lines erased, at every skip level. -/
theorem filterLines_filter_nonblank (skip : Int) (ls : List (List Char)) :
    (filterLines skip ls).filter (fun l => !trimEmpty l)
      = filterLines skip (ls.filter (fun l => !trimEmpty l)) := by
  induction ls generalizing skip with
  | nil => rfl
  | cons x xs ih =>
    by_cases h1 : trimEmpty x = true
    · have hf : (x :: xs).filter (fun l => !trimEmpty l)
          = xs.filter (fun l => !trimEmpty l) := by
        simp [List.filter_cons, h1]
      have hf2 : (x :: filterLines skip xs).filter (fun l => !trimEmpty l)
          = (filterLines skip xs).filter (fun l => !trimEmpty l) := by
        simp [List.filter_cons, h1]
      rw [filterLines_cons_blank h1, hf, hf2, ih]
    · have h1' : trimEmpty x = false := Bool.eq_false_iff.mpr h1
      have hf : (x :: xs).filter (fun l => !trimEmpty l)
          = x :: xs.filter (fun l => !trimEmpty l) := by
        simp [List.filter_cons, h1']
      rw [hf]
      by_cases h2 : taskRegexTest x = true
      · rw [filterLines_cons_task h1' h2, filterLines_cons_task h1' h2, ih]
      · have h2' : taskRegexTest x = false := Bool.eq_false_iff.mpr h2
        by_cases h3 : skip > 0 ∧ lineLevel x > skip
        · rw [filterLines_cons_deep h1' h2' h3, filterLines_cons_deep h1' h2' h3, ih]
        · have hf2 : (x :: filterLines 0 xs).filter (fun l => !trimEmpty l)
              = x :: (filterLines 0 xs).filter (fun l => !trimEmpty l) := by
            simp [List.filter_cons, h1']
          rw [filterLines_cons_emit h1' h2' h3, filterLines_cons_emit h1' h2' h3, hf2, ih]

/-- The filter emits exactly as many whitespace-only lines as it was given,
at every skip level. -/
theorem countP_trimEmpty_filterLines (skip : Int) (ls : List (List Char)) :
    (filterLines skip ls).countP trimEmpty = ls.countP trimEmpty := by
  induction ls generalizing skip with
  | nil => rfl
  | cons x xs ih =>
    by_cases h1 : trimEmpty x = true
    · rw [filterLines_cons_blank h1, List.countP_cons, List.countP_cons, if_pos h1, ih]
    · have h1' : trimEmpty x = false := Bool.eq_false_iff.mpr h1
      by_cases h2 : taskRegexTest x = true
      · rw [filterLines_cons_task h1' h2, ih, List.countP_cons, if_neg h1, Nat.add_zero]
      · have h2' : taskRegexTest x = false := Bool.eq_false_iff.mpr h2
        by_cases h3 : skip > 0 ∧ lineLevel x > skip
        · rw [filterLines_cons_deep h1' h2' h3, ih, List.countP_cons, if_neg h1,
            Nat.add_zero]
        · rw [filterLines_cons_emit h1' h2' h3, List.countP_cons, List.countP_cons,
            if_neg h1, ih]

/-- What the ordered alternation returns: the matched token is one of the
alternatives and the remainder is the text after its length. -/
theorem matchAlt_some :
    ∀ {toks : List (List Char)} {s t r : List Char},
      matchAlt toks s = some (t, r) → t ∈ toks ∧ r = s.drop t.length := by
  intro toks
  induction toks with
  | nil => intro s t r h; simp [matchAlt] at h
  | cons t0 ts ih =>
    intro s t r h
    simp only [matchAlt] at h
    by_cases hp : t0.isPrefixOf s = true
    · rw [if_pos hp] at h
      simp only [Option.some.injEq, Prod.mk.injEq] at h
      obtain ⟨rfl, rfl⟩ := h
      exact ⟨List.mem_cons_self _ _, rfl⟩
    · rw [if_neg hp] at h
      obtain ⟨h1, h2⟩ := ih h
      exact ⟨List.mem_cons_of_mem _ h1, h2⟩

/-- The token-replacement scan introduces no occurrence of a character that
occurs neither in its input nor in any formatted token value. -/
theorem not_mem_replaceDateTokensAux {a : Char} {fmt : List Char → List Char}
    (hf : ∀ t ∈ dateTokens, a ∉ fmt t) :
    ∀ (fuel : Nat) {s : List Char}, a ∉ s → a ∉ replaceDateTokensAux fmt fuel s := by
  intro fuel
  induction fuel with
  | zero => intro s _; simp [replaceDateTokensAux]
  | succ n ih =>
    intro s hs
    simp only [replaceDateTokensAux]
    cases hm : matchAlt dateTokens s with
    | some p =>
      obtain ⟨t, r⟩ := p
      obtain ⟨ht, hr⟩ := matchAlt_some hm
      intro hmem
      rcases List.mem_append.mp hmem with h | h
      · exact hf t ht h
      · exact ih (by rw [hr]; exact fun hx => hs (List.drop_subset _ _ hx)) h
    | none =>
      cases s with
      | nil => simp
      | cons c cs =>
        intro hmem
        rcases List.mem_cons.mp hmem with h | h
        · exact hs (by rw [h]; exact List.mem_cons_self c cs)
        · exact ih (fun hx => hs (List.mem_cons_of_mem c hx)) h

/-- Full characterization of the lookback loop from any starting offset:
the result is the read of the first offset in the candidate range whose
probe succeeds, the probed offsets are an initial segment of the candidate
range, every probed offset before the last one fails the probe, and at
most one probed offset succeeds. -/
theorem lookbackAux_spec (ex : Nat → Bool) (rd : Nat → List Char) :
    ∀ (n i : Nat),
      (lookbackAux ex rd i n).2 = ((daysRange i n).find? ex).map rd ∧
      (∃ k, (lookbackAux ex rd i n).1 = (daysRange i n).take k) ∧
      (∀ j ∈ (lookbackAux ex rd i n).1.dropLast, ex j = false) ∧
      (lookbackAux ex rd i n).1.countP ex ≤ 1 := by
  intro n
  induction n with
  | zero =>
    intro i
    exact ⟨rfl, ⟨0, rfl⟩, by simp [lookbackAux], by simp [lookbackAux]⟩
  | succ m ih =>
    intro i
    by_cases hex : ex i = true
    · have hl : lookbackAux ex rd i (m + 1) = ([i], some (rd i)) := by
        simp [lookbackAux, hex]
      refine ⟨?_, ⟨1, ?_⟩, ?_, ?_⟩
      · rw [hl]
        simp [daysRange, List.find?_cons_of_pos _ hex]
      · rw [hl]
        simp [daysRange]
      · rw [hl]
        simp
      · rw [hl]
        simp [List.countP_cons, hex]
    · have hex' : ex i = false := Bool.eq_false_iff.mpr hex
      have hl : lookbackAux ex rd i (m + 1)
          = (i :: (lookbackAux ex rd (i + 1) m).1, (lookbackAux ex rd (i + 1) m).2) := by
        simp [lookbackAux, hex]
      obtain ⟨ih1, ⟨k, ih2⟩, ih3, ih4⟩ := ih (i + 1)
      refine ⟨?_, ⟨k + 1, ?_⟩, ?_, ?_⟩
      · rw [hl]
        simp only [daysRange]
        rw [List.find?_cons_of_neg _ hex]
        exact ih1
      · rw [hl]
        simp only [daysRange, List.take_succ_cons]
        rw [ih2]
      · rw [hl]
        intro j hj
        cases hp : (lookbackAux ex rd (i + 1) m).1 with
        | nil =>
          rw [hp] at hj
          simp at hj
        | cons q qs =>
          rw [hp] at hj
          rw [List.dropLast_cons₂] at hj
          rcases List.mem_cons.mp hj with h | h
          · rw [h]
            exact hex'
          · exact ih3 j (by rw [hp]; exact h)
      · rw [hl]
        simp only [List.countP_cons, hex']
        simpa using ih4

/-- Tab expansion is idempotent: its output contains no tab characters. -/
theorem replaceTabs_idem (l : List Char) :
    replaceTabs (replaceTabs l) = replaceTabs l := by
  induction l with
  | nil => rfl
  | cons c cs ih =>
    by_cases hc : c = '\t'
    · simp [replaceTabs, hc, ih]
    · simp [replaceTabs, hc, ih]

/-- Dropping a predicate that holds on a whole prefix skips that prefix. -/
theorem dropWhile_append_of_all {p : Char → Bool} {pre l : List Char}
    (h : pre.all p = true) : (pre ++ l).dropWhile p = l.dropWhile p := by
  induction pre with
  | nil => rfl
  | cons c cs ih =>
    simp only [List.all_cons, Bool.and_eq_true] at h
    simp [List.dropWhile_cons, h.1, ih h.2]

/-- The completed-task test ignores any whitespace-only prefix. -/
theorem taskRegexTest_ws_append {pre l : List Char}
    (h : pre.all jsWhitespace = true) :
    taskRegexTest (pre ++ l) = taskRegexTest l := by
  unfold taskRegexTest
  rw [dropWhile_append_of_all h]

/-- Filtering leaves no completed task behind, so filtering a second time
is the identity on already-filtered text. -/
theorem removeCompletedTasks_idem (t : List Char) :
    removeCompletedTasks (removeCompletedTasks t) = removeCompletedTasks t := by
  unfold removeCompletedTasks
  cases hout : filterLines 0 (splitOnChar '\n' t) with
  | nil => rfl
  | cons l ls =>
    have hsub : List.Sublist (l :: ls) (splitOnChar '\n' t) := by
      rw [← hout]
      exact filterLines_sublist 0 _
    have hnl : ∀ x ∈ l :: ls, '\n' ∉ x := fun x hx =>
      not_mem_of_mem_splitOnChar x (hsub.subset hx)
    rw [splitOnChar_joinChar (by simp) hnl]
    rw [filterLines_id (fun x hx =>
      taskRegexTest_of_mem_filterLines
        (show x ∈ filterLines 0 (splitOnChar '\n' t) by rw [hout]; exact hx))]

/-- The token scan introduces no character that occurs neither in the
segment nor in any formatted token value. -/
theorem not_mem_replaceDateTokens {a : Char} {fmt : List Char → List Char}
    (hf : ∀ t ∈ dateTokens, a ∉ fmt t) {s : List Char} (hs : a ∉ s) :
    a ∉ replaceDateTokens fmt s :=
  not_mem_replaceDateTokensAux hf s.length hs

/-- A single line whose sole content is a tab followed by text. -/
def tabLineInput : List Char := "\thello".data

/-- Input with an uppercase-checkbox line nested under a completed task. -/
def upperNestedInput : List Char := "- [x] a\n   - [X] b".data

/-- The nested uppercase-checkbox line of that input. -/
def upperLine : List Char := "   - [X] b".data

/-- A standalone uppercase-checkbox line. -/
def upperStandalone : List Char := "- [X] done".data

/-- The same line with a lowercase checkbox. -/
def lowerStandalone : List Char := "- [x] done".data

/-- The lowercase-checkbox line with an asterisk marker. -/
def lowerStarStandalone : List Char := "* [x] done".data

/-- A plain line with no checklist content. -/
def plainLine : List Char := "alpha".data

/-- A two-segment template with one literal and one token segment. -/
def journalTemplate : List Char := "journal/YYYY-MM".data

/-- A three-segment template with one literal and two token segments. -/
def journalTree : List Char := "journal/YYYY/MM".data

/-- Existence probe of the witness vault: notes two and five days back. -/
def exDays : Nat → Bool := fun i => i == 2 || i == 5

/-- Read capability of the witness vault, distinguishing the days. -/
def rdDays : Nat → List Char := fun i => List.replicate i 'a'

/-- C1: on the six-line example input the task filter returns exactly the
open task line and the trailing sibling line joined with a newline: the
first completed task and its indented child are dropped, the open task is
kept, the open task's nested completed child and that child's deeper
descendant are dropped, and the trailing top-level sibling is kept. -/
theorem claim1_level_tracking_example :
    removeCompletedTasks levelExampleInput = levelExampleOutput := by decide

/-- C2: the token alternation of the resolver is tried in array order, not
longest-first: at the date 2024-03-05 the template of four M renders as the
two-digit month twice (not the full month name), the template of four d
renders as the short weekday name followed by a literal d (not the full
weekday name), while the template of four Y does render as the four-digit
year.  This evaluates the code at the failing inputs of the claim. -/
theorem claim2_alternation_not_longest_match :
    parseCustomFolderPath fmtMar5 ("MMMM".data) = "0303".data ∧
    parseCustomFolderPath fmtMar5 ("MMMM".data) ≠ "March".data ∧
    parseCustomFolderPath fmtMar5 ("dddd".data) = "Tued".data ∧
    parseCustomFolderPath fmtMar5 ("dddd".data) ≠ "Tuesday".data ∧
    parseCustomFolderPath fmtMar5 ("YYYY".data) = "2024".data :=
  ⟨by decide, by decide, by decide, by decide, by decide⟩

/-- C3 counterexample: a retained line containing a tab is emitted with the
tab intact rather than expanded to three spaces, refuting the claim that
every retained line is emitted in tab-expanded form. -/
theorem claim3_counterexample :
    removeCompletedTasks tabLineInput = tabLineInput ∧
    removeCompletedTasks tabLineInput ≠ replaceTabs tabLineInput :=
  ⟨by decide, by decide⟩

/-- C3 (amended): every retained line of the task filter is emitted
verbatim as a line of the input, tab characters included; tab expansion to
three spaces enters only the computation of a line's indent level, which
depends only on the tab-expanded form of the line. -/
theorem claim3_tabs_only_for_level :
    (∀ (skip : Int) (ls : List (List Char)) (l : List Char),
        l ∈ filterLines skip ls → l ∈ ls) ∧
    (∀ l : List Char, lineLevel l = lineLevel (replaceTabs l)) := by
  constructor
  · intro skip ls l h
    exact (filterLines_sublist skip ls).subset h
  · intro l
    unfold lineLevel
    rw [replaceTabs_idem]

/-- Witness instantiating the amended tab claim at a concrete retained
line. -/
theorem claim3_witness : plainLine ∈ [plainLine] :=
  claim3_tabs_only_for_level.1 0 [plainLine] plainLine (by decide)

/-- C4: for every bound between one and thirty and every vault, the
lookback search probes offsets one, two, and so on in order: the result is
the content of the first candidate whose probe succeeds and is absent when
no candidate within the bound exists (even if one exists further back),
the probed offsets form an initial segment of the range from one to the
bound (so neither today, nor any future date, nor any day beyond the bound
is examined), every probe before the last one fails, and at most one probe
succeeds, so at most one read occurs. -/
theorem claim4_lookback_search (ex : Nat → Bool) (rd : Nat → List Char)
    (maxDays : Nat) (_hlo : 1 ≤ maxDays) (_hhi : maxDays ≤ 30) :
    (findPreviousNote ex rd maxDays).2 = ((daysRange 1 maxDays).find? ex).map rd ∧
    (∃ k, (findPreviousNote ex rd maxDays).1 = (daysRange 1 maxDays).take k) ∧
    (∀ j ∈ (findPreviousNote ex rd maxDays).1.dropLast, ex j = false) ∧
    (findPreviousNote ex rd maxDays).1.countP ex ≤ 1 :=
  lookbackAux_spec ex rd maxDays 1

/-- Witness: with notes existing only two and five days back and a bound of
seven, the search returns the content of the day-two note. -/
theorem claim4_witness :
    (findPreviousNote exDays rdDays 7).2 = some (rdDays 2) := by
  have h := (claim4_lookback_search exDays rdDays 7 (by decide) (by decide)).1
  rw [h]
  rfl

/-- C5: the task filter is deterministic, and idempotent: filtering its own
output changes nothing, because no removable completed task remains in the
output. -/
theorem claim5_deterministic_idempotent (t u : List Char) :
    (t = u → removeCompletedTasks t = removeCompletedTasks u) ∧
    removeCompletedTasks (removeCompletedTasks t) = removeCompletedTasks t :=
  ⟨fun h => by rw [h], removeCompletedTasks_idem t⟩

/-- Witness instantiating determinism and idempotence at the concrete
six-line example text. -/
theorem claim5_witness :
    removeCompletedTasks levelExampleInput = removeCompletedTasks levelExampleInput ∧
    removeCompletedTasks (removeCompletedTasks levelExampleInput)
      = removeCompletedTasks levelExampleInput :=
  ⟨(claim5_deterministic_idempotent levelExampleInput levelExampleInput).1 rfl,
   (claim5_deterministic_idempotent levelExampleInput levelExampleInput).2⟩

/-- C6 counterexample: in an input whose uppercase-checkbox line is nested
under a completed task, that line is present among the input lines but not
among the output lines, refuting the claim that an uppercase-checkbox line
remains verbatim in the output of every input. -/
theorem claim6_counterexample :
    upperLine ∈ splitOnChar '\n' upperNestedInput ∧
    upperLine ∉ splitOnChar '\n' (removeCompletedTasks upperNestedInput) :=
  ⟨by decide, by decide⟩

/-- C6 (amended): completed-task classification accepts dash and asterisk
markers and is case-sensitive on the checkbox: a line whose checkbox holds
an uppercase X never matches the completed-task pattern, for any
whitespace-only prefix and any continuation, while the same line with a
lowercase x always matches; the standalone uppercase line passes through
the filter verbatim while its lowercase counterparts are removed.  An
uppercase line can still be dropped when nested inside an active
suppressed completed-task block. -/
theorem claim6_case_sensitive :
    (∀ pre rest : List Char, pre.all jsWhitespace = true →
      taskRegexTest (pre ++ '-' :: ' ' :: '[' :: 'X' :: ']' :: rest) = false ∧
      taskRegexTest (pre ++ '*' :: ' ' :: '[' :: 'X' :: ']' :: rest) = false ∧
      taskRegexTest (pre ++ '-' :: ' ' :: '[' :: 'x' :: ']' :: rest) = true ∧
      taskRegexTest (pre ++ '*' :: ' ' :: '[' :: 'x' :: ']' :: rest) = true) ∧
    removeCompletedTasks upperStandalone = upperStandalone ∧
    removeCompletedTasks lowerStandalone = [] ∧
    removeCompletedTasks lowerStarStandalone = [] := by
  refine ⟨?_, by decide, by decide, by decide⟩
  intro pre rest h
  rw [taskRegexTest_ws_append h, taskRegexTest_ws_append h,
    taskRegexTest_ws_append h, taskRegexTest_ws_append h]
  exact ⟨rfl, rfl, rfl, rfl⟩

/-- Witness instantiating the case-sensitivity claim with empty leading
whitespace and empty continuation. -/
theorem claim6_witness :
    taskRegexTest ('-' :: ' ' :: '[' :: 'X' :: ']' :: []) = false ∧
    taskRegexTest ('-' :: ' ' :: '[' :: 'x' :: ']' :: []) = true := by
  have h := claim6_case_sensitive.1 [] [] (by decide)
  exact ⟨h.1, h.2.2.1⟩

/-- C7: the resolver splits the template on slashes, maps the per-segment
processing over the segments and rejoins them with slashes; a segment
without any recognized token substring passes through unchanged; and the
segment of four Y, a dash, and two M, with the date 2024-03-05, resolves
to 2024-03. -/
theorem claim7_per_segment_resolution :
    (∀ (fmt : List Char → List Char) (tpl : List Char), tpl ≠ [] →
      parseCustomFolderPath fmt tpl
        = joinChar '/' ((splitOnChar '/' tpl).map (processSegment fmt))) ∧
    (∀ (fmt : List Char → List Char) (seg : List Char),
      (dateTokens.any fun t => listIncludes t seg) = false →
      processSegment fmt seg = seg) ∧
    parseCustomFolderPath fmtMar5 ("YYYY-MM".data) = "2024-03".data := by
  refine ⟨?_, ?_, by decide⟩
  · intro fmt tpl h
    unfold parseCustomFolderPath
    rw [if_neg h]
  · intro fmt seg h
    unfold processSegment
    rw [if_neg (by simp [h])]

/-- Witness: the per-segment claims applied at a concrete template and a
concrete literal segment. -/
theorem claim7_witness :
    parseCustomFolderPath fmtMar5 journalTemplate
      = joinChar '/' ((splitOnChar '/' journalTemplate).map (processSegment fmtMar5)) ∧
    processSegment fmtMar5 ("journal".data) = "journal".data :=
  ⟨claim7_per_segment_resolution.1 fmtMar5 journalTemplate (by decide),
   claim7_per_segment_resolution.2.1 fmtMar5 ("journal".data) (by decide)⟩

/-- C8: whitespace-only lines are emitted and do not affect the skip
state: a blank line passes through with the skip level unchanged, the
output holds exactly the blank lines of the input, and erasing blank lines
commutes with the filter, so suppression of deeper lines continues across
a blank line exactly as if it were absent. -/
theorem claim8_blank_lines (skip : Int) (ls : List (List Char)) :
    (∀ b : List Char, trimEmpty b = true →
      filterLines skip (b :: ls) = b :: filterLines skip ls) ∧
    (filterLines skip ls).countP trimEmpty = ls.countP trimEmpty ∧
    (filterLines skip ls).filter (fun l => !trimEmpty l)
      = filterLines skip (ls.filter (fun l => !trimEmpty l)) :=
  ⟨fun _ hb => filterLines_cons_blank hb skip ls,
   countP_trimEmpty_filterLines skip ls,
   filterLines_filter_nonblank skip ls⟩

/-- Witness: a one-space line inside an active skip block passes through
with the skip state intact. -/
theorem claim8_witness :
    filterLines 2 ([' '] :: []) = [' '] :: filterLines 2 [] :=
  (claim8_blank_lines 2 []).1 [' '] (by decide)

/-- C9: the filter only ever drops whole lines: the lines it emits form a
subsequence of the input lines, each emitted character for character, and
the output text is the newline join of that subsequence. -/
theorem claim9_output_subsequence (t : List Char) :
    ∃ ls, removeCompletedTasks t = joinChar '\n' ls ∧
      List.Sublist ls (splitOnChar '\n' t) :=
  ⟨filterLines 0 (splitOnChar '\n' t), rfl, filterLines_sublist 0 _⟩

/-- C10: when no token's rendered value contains a slash, resolution
preserves the number of slash-separated segments of the template: token
substitution never merges, removes, or introduces path segments. -/
theorem claim10_segment_count (fmt : List Char → List Char) (tpl : List Char)
    (hf : ∀ t ∈ dateTokens, '/' ∉ fmt t) :
    (splitOnChar '/' (parseCustomFolderPath fmt tpl)).length
      = (splitOnChar '/' tpl).length := by
  by_cases h : tpl = []
  · rw [h]
    rfl
  · unfold parseCustomFolderPath
    rw [if_neg h]
    have hsegs : ∀ seg ∈ (splitOnChar '/' tpl).map (processSegment fmt), '/' ∉ seg := by
      intro seg hseg
      obtain ⟨s0, hs0, rfl⟩ := List.mem_map.mp hseg
      have hns : '/' ∉ s0 := not_mem_of_mem_splitOnChar s0 hs0
      unfold processSegment
      by_cases hc : (dateTokens.any fun t => listIncludes t s0) = true
      · rw [if_pos hc]
        exact not_mem_replaceDateTokens hf hns
      · rw [if_neg hc]
        exact hns
    have hne : (splitOnChar '/' tpl).map (processSegment fmt) ≠ [] := by
      intro hmap
      exact splitOnChar_ne_nil '/' tpl (List.map_eq_nil_iff.mp hmap)
    rw [splitOnChar_joinChar hne hsegs, List.length_map]

/-- Witness: segment counts agree for a concrete three-segment template at
the concrete date formatting. -/
theorem claim10_witness :
    (splitOnChar '/' (parseCustomFolderPath fmtMar5 journalTree)).length
      = (splitOnChar '/' journalTree).length :=
  claim10_segment_count fmtMar5 journalTree (by decide)

end CopyPrevNote
